import Mathlib

/-!
Verification of the spherical direct-geodesic library (`geodesic_destination`).

The Rust source operates on `f64`; this development shallowly embeds it over
the real numbers: every floating-point operation is modelled by the
corresponding exact real operation, Rust's remainder operator `%` on floats is
modelled by a truncated-division remainder `fmod`, and the `assert!` panic in
`destination_with_radius` is modelled by returning `none`.
-/

open Real

set_option maxHeartbeats 1000000

/-- Mean Earth radius in meters, `EARTH_RADIUS_M` from the source. -/
def EARTH_RADIUS_M : ℝ := 6371000.0

/-- Latitude/longitude pair in radians, the source's `LatLon` struct. -/
structure LatLon where
  lat : ℝ
  lon : ℝ

/-- Model of `clamp(value, min, max) = value.max(min).min(max)` from the source. -/
noncomputable def clamp (value lo hi : ℝ) : ℝ :=
  min (max value lo) hi

/-- Truncation toward zero, as used by the floating-point remainder. -/
noncomputable def rtrunc (x : ℝ) : ℤ :=
  if 0 ≤ x then ⌊x⌋ else ⌈x⌉

/-- Real model of Rust's `%` on `f64`: remainder of truncated division. -/
noncomputable def fmod (a b : ℝ) : ℝ :=
  a - b * (rtrunc (a / b) : ℝ)

/-- Model of the private `wrap_pi` from the source: wrap a longitude using
`(lon + PI) % (2*PI)`, correcting a negative remainder, then subtracting `PI`. -/
noncomputable def wrap_pi (lon : ℝ) : ℝ :=
  (if fmod (lon + Real.pi) (2 * Real.pi) < 0 then
    fmod (lon + Real.pi) (2 * Real.pi) + 2 * Real.pi
  else
    fmod (lon + Real.pi) (2 * Real.pi)) - Real.pi

lemma fmod_bounds (a b : ℝ) (hb : 0 < b) : -b < fmod a b ∧ fmod a b < b := by
  unfold fmod rtrunc
  split_ifs with h
  · have h1 : ((⌊a / b⌋ : ℝ)) * b ≤ a := (le_div_iff hb).mp (Int.floor_le (a / b))
    have h2 : a < ((⌊a / b⌋ : ℝ) + 1) * b := (div_lt_iff hb).mp (Int.lt_floor_add_one (a / b))
    constructor <;> nlinarith
  · have h1 : a ≤ ((⌈a / b⌉ : ℝ)) * b := (div_le_iff hb).mp (Int.le_ceil (a / b))
    have h2 : ((⌈a / b⌉ : ℝ) - 1) * b < a := by
      have := Int.ceil_lt_add_one (a / b)
      have h3 : (⌈a / b⌉ : ℝ) - 1 < a / b := by linarith
      exact (lt_div_iff hb).mp h3
    constructor <;> nlinarith

lemma fmod_decomp (a b : ℝ) : fmod a b = a - b * (rtrunc (a / b) : ℝ) := rfl

lemma wrap_pi_mem (lon : ℝ) : wrap_pi lon ∈ Set.Ico (-Real.pi) Real.pi := by
  have hb : (0 : ℝ) < 2 * Real.pi := by positivity
  obtain ⟨hl, hr⟩ := fmod_bounds (lon + Real.pi) (2 * Real.pi) hb
  unfold wrap_pi
  rw [Set.mem_Ico]
  split_ifs with h
  · constructor <;> linarith
  · push_neg at h
    constructor <;> linarith

lemma wrap_pi_at_pi : wrap_pi Real.pi = -Real.pi := by
  have hb : (0 : ℝ) < 2 * Real.pi := by positivity
  have hq : (Real.pi + Real.pi) / (2 * Real.pi) = 1 := by
    rw [div_eq_one_iff_eq (ne_of_gt hb)]; ring
  have hfm : fmod (Real.pi + Real.pi) (2 * Real.pi) = 0 := by
    unfold fmod rtrunc
    rw [hq]
    norm_num
    ring
  unfold wrap_pi
  rw [hfm]
  norm_num

/-- Real model of `f64::atan2(y, x)`: the angle of the point `(x, y)` in
`(-pi, pi]`, with `atan2 0 0 = 0`. -/
noncomputable def atan2 (y x : ℝ) : ℝ :=
  if 0 < x then Real.arctan (y / x)
  else if x < 0 then
    (if 0 ≤ y then Real.arctan (y / x) + Real.pi else Real.arctan (y / x) - Real.pi)
  else
    (if 0 < y then Real.pi / 2 else if y < 0 then -(Real.pi / 2) else 0)

/-- The trigonometric path of `destination_with_radius` (source lines 121-139):
angular distance `delta = distance_m / radius_m`, then
`sin_lat2 = sin_lat1*cos_delta + cos_lat1*sin_delta*cos(bearing)`,
`lat2 = asin(clamp(sin_lat2, -1, 1))`,
`y = sin(bearing)*sin_delta*cos_lat1`, `x = cos_delta - sin_lat1*sin(lat2)`,
`lon2 = wrap_pi(start.lon + atan2(y, x))`. -/
noncomputable def destination_with_radius_body
    (start : LatLon) (distance_m bearing_rad radius_m : ℝ) : LatLon :=
  LatLon.mk
    (Real.arcsin (clamp
      (Real.sin start.lat * Real.cos (distance_m / radius_m)
        + Real.cos start.lat * Real.sin (distance_m / radius_m) * Real.cos bearing_rad)
      (-1) 1))
    (wrap_pi (start.lon + atan2
      (Real.sin bearing_rad * Real.sin (distance_m / radius_m) * Real.cos start.lat)
      (Real.cos (distance_m / radius_m) - Real.sin start.lat * Real.sin
        (Real.arcsin (clamp
          (Real.sin start.lat * Real.cos (distance_m / radius_m)
            + Real.cos start.lat * Real.sin (distance_m / radius_m) * Real.cos bearing_rad)
          (-1) 1)))))

/-- Model of `destination_with_radius`: the `assert!(radius_m > 0.0)` panic is
modelled as `none`; a zero distance returns `start` unchanged; otherwise the
trigonometric path runs. -/
noncomputable def destination_with_radius
    (start : LatLon) (distance_m bearing_rad radius_m : ℝ) : Option LatLon :=
  if 0 < radius_m then
    some (if distance_m = 0 then start
      else destination_with_radius_body start distance_m bearing_rad radius_m)
  else none

/-- Model of `destination`: `destination_with_radius` with the mean Earth radius. -/
noncomputable def destination (start : LatLon) (distance_m bearing_rad : ℝ) : Option LatLon :=
  destination_with_radius start distance_m bearing_rad EARTH_RADIUS_M

namespace test_utils

/-- Model of the private `wrap_360`: `deg % 360.0`, plus `360` if negative. -/
noncomputable def wrap_360 (deg : ℝ) : ℝ :=
  if fmod deg 360 < 0 then fmod deg 360 + 360 else fmod deg 360

/-- Model of `test_utils::distance_m`, the haversine great-circle distance:
`a = sin²(dlat/2) + cos(p.lat)·cos(q.lat)·sin²(dlon/2)` clamped to `[0,1]`,
`c = 2·atan2(√a, √(1−a))`, result `EARTH_RADIUS_M · c`. -/
noncomputable def distance_m (p q : LatLon) : ℝ :=
  EARTH_RADIUS_M *
    (2 * atan2
      (Real.sqrt (clamp
        (Real.sin ((q.lat - p.lat) * 0.5) * Real.sin ((q.lat - p.lat) * 0.5)
          + Real.cos p.lat * Real.cos q.lat
            * Real.sin ((q.lon - p.lon) * 0.5) * Real.sin ((q.lon - p.lon) * 0.5))
        0 1))
      (Real.sqrt (1 - clamp
        (Real.sin ((q.lat - p.lat) * 0.5) * Real.sin ((q.lat - p.lat) * 0.5)
          + Real.cos p.lat * Real.cos q.lat
            * Real.sin ((q.lon - p.lon) * 0.5) * Real.sin ((q.lon - p.lon) * 0.5))
        0 1)))

/-- Model of `test_utils::azimuth_deg`, the initial azimuth from `p` to `s` in
degrees: `y = sin(dlon)·cos(s.lat)`, `x = cos(p.lat)·sin(s.lat) −
sin(p.lat)·cos(s.lat)·cos(dlon)`; `0` when `x == 0 && y == 0`, otherwise
`atan2(y, x)` converted to degrees and wrapped into `[0, 360)`. -/
noncomputable def azimuth_deg (p s : LatLon) : ℝ :=
  if Real.cos p.lat * Real.sin s.lat
      - Real.sin p.lat * Real.cos s.lat * Real.cos (s.lon - p.lon) = 0
    ∧ Real.sin (s.lon - p.lon) * Real.cos s.lat = 0 then 0
  else wrap_360
    (atan2 (Real.sin (s.lon - p.lon) * Real.cos s.lat)
      (Real.cos p.lat * Real.sin s.lat
        - Real.sin p.lat * Real.cos s.lat * Real.cos (s.lon - p.lon))
      * (180 / Real.pi))

/-- Model of `test_utils::angle_diff_deg`: `diff = (a − b) % 360`, shifted by
`±360` into `[-180, 180]`, then the absolute value. -/
noncomputable def angle_diff_deg (a b : ℝ) : ℝ :=
  |if fmod (a - b) 360 < -180 then fmod (a - b) 360 + 360
   else if 180 < fmod (a - b) 360 then fmod (a - b) 360 - 360
   else fmod (a - b) 360|

lemma wrap_360_mem (deg : ℝ) : wrap_360 deg ∈ Set.Ico (0 : ℝ) 360 := by
  obtain ⟨hl, hr⟩ := fmod_bounds deg 360 (by norm_num)
  unfold wrap_360
  rw [Set.mem_Ico]
  split_ifs with h
  · constructor <;> linarith
  · push_neg at h
    constructor <;> linarith

end test_utils

/-- C1 counterexample: `wrap_pi` at the exact input `pi` returns `-pi`, not
`pi`, so the result is not in the half-open interval `(-pi, pi]`. -/
theorem wrap_pi_at_pi_breaks_Ioc :
    wrap_pi Real.pi = -Real.pi ∧ wrap_pi Real.pi ≠ Real.pi
      ∧ wrap_pi Real.pi ∉ Set.Ioc (-Real.pi) Real.pi := by
  refine ⟨wrap_pi_at_pi, ?_, ?_⟩
  · rw [wrap_pi_at_pi]
    have := Real.pi_pos
    intro h
    linarith
  · rw [wrap_pi_at_pi]
    simp [Set.mem_Ioc]

/-- C1 (amended): `wrap_pi` maps every real input into the half-open interval
`[-pi, pi)`; an input of exactly `pi` normalizes to `-pi`; consequently the
longitude returned by `destination_with_radius` on the trigonometric path
(nonzero distance) always lies in `[-pi, pi)`. -/
theorem wrap_pi_and_destination_lon_range :
    (∀ lon : ℝ, wrap_pi lon ∈ Set.Ico (-Real.pi) Real.pi)
    ∧ wrap_pi Real.pi = -Real.pi
    ∧ (∀ (s : LatLon) (d b r : ℝ) (p : LatLon),
        destination_with_radius s d b r = some p → d ≠ 0 →
        p.lon ∈ Set.Ico (-Real.pi) Real.pi) := by
  refine ⟨wrap_pi_mem, wrap_pi_at_pi, ?_⟩
  intro s d b r p h hd
  unfold destination_with_radius at h
  split_ifs at h with hr
  · have hp : p = destination_with_radius_body s d b r := (Option.some.inj h).symm
    subst hp
    exact wrap_pi_mem _

/-- C1 witness: a concrete run of the third clause at start `(0,0)`,
distance `1`, bearing `0`, radius `1`. -/
theorem destination_lon_range_witness :
    (destination_with_radius_body (LatLon.mk 0 0) 1 0 1).lon
      ∈ Set.Ico (-Real.pi) Real.pi :=
  wrap_pi_and_destination_lon_range.2.2 (LatLon.mk 0 0) 1 0 1
    (destination_with_radius_body (LatLon.mk 0 0) 1 0 1)
    (by norm_num [destination_with_radius]) (by norm_num)

/-- C2: a zero distance makes `destination_with_radius` (for any positive
radius) and `destination` return the start coordinate exactly, through the
early-return path that bypasses the trigonometric formulas. -/
theorem destination_zero_distance_identity :
    (∀ (start : LatLon) (bearing_rad radius_m : ℝ), 0 < radius_m →
      destination_with_radius start 0 bearing_rad radius_m = some start)
    ∧ (∀ (start : LatLon) (bearing_rad : ℝ),
      destination start 0 bearing_rad = some start) := by
  constructor
  · intro s b r hr
    unfold destination_with_radius
    rw [if_pos hr, if_pos rfl]
  · intro s b
    unfold destination destination_with_radius
    rw [if_pos (by norm_num [EARTH_RADIUS_M] : (0:ℝ) < EARTH_RADIUS_M), if_pos rfl]

/-- C2 witness: the identity at start `(1,2)`, bearing `3`, radius `4`. -/
theorem destination_zero_distance_identity_witness :
    destination_with_radius (LatLon.mk 1 2) 0 3 4 = some (LatLon.mk 1 2) :=
  destination_zero_distance_identity.1 (LatLon.mk 1 2) 3 4 (by norm_num)

/-- C3: `destination_with_radius` panics (modelled as `none`) exactly when the
radius is nonpositive; for every positive radius it returns a value. -/
theorem destination_with_radius_none_iff_nonpos_radius :
    ∀ (s : LatLon) (d b r : ℝ),
      destination_with_radius s d b r = none ↔ r ≤ 0 := by
  intro s d b r
  constructor
  · intro hc
    by_contra hle
    push_neg at hle
    unfold destination_with_radius at hc
    rw [if_pos hle] at hc
    exact Option.noConfusion hc
  · intro hle
    unfold destination_with_radius
    rw [if_neg (not_lt.mpr hle)]

/-- C4 counterexample: with start latitude `5` (outside `[-pi/2, pi/2]`) and
distance `0`, `destination_with_radius` returns latitude `5`, so the claimed
range does not hold for every finite start coordinate. -/
theorem destination_lat_range_fails_at_zero_distance :
    destination_with_radius (LatLon.mk 5 0) 0 0 1 = some (LatLon.mk 5 0)
    ∧ (LatLon.mk 5 0).lat ∉ Set.Icc (-(Real.pi / 2)) (Real.pi / 2) := by
  constructor
  · norm_num [destination_with_radius]
  · simp only [Set.mem_Icc, not_and, not_le]
    intro _
    have := Real.pi_lt_315
    linarith

/-- C4 (amended): for nonzero distance (the trigonometric path) the latitude
returned by `destination_with_radius` lies in `[-pi/2, pi/2]`, because the
`asin` argument is clamped to `[-1, 1]`; the zero-distance path instead
returns the start latitude unchanged. -/
theorem destination_lat_range_on_trig_path :
    ∀ (s : LatLon) (d b r : ℝ) (p : LatLon),
      destination_with_radius s d b r = some p → d ≠ 0 →
      p.lat ∈ Set.Icc (-(Real.pi / 2)) (Real.pi / 2) := by
  intro s d b r p h hd
  unfold destination_with_radius at h
  split_ifs at h with hr
  · have hp : p = destination_with_radius_body s d b r := (Option.some.inj h).symm
    subst hp
    exact Real.arcsin_mem_Icc _

/-- C4 witness: a concrete run at start `(0,0)`, distance `1`, bearing `0`,
radius `1`. -/
theorem destination_lat_range_on_trig_path_witness :
    (destination_with_radius_body (LatLon.mk 0 0) 1 0 1).lat
      ∈ Set.Icc (-(Real.pi / 2)) (Real.pi / 2) :=
  destination_lat_range_on_trig_path (LatLon.mk 0 0) 1 0 1
    (destination_with_radius_body (LatLon.mk 0 0) 1 0 1)
    (by norm_num [destination_with_radius]) (by norm_num)

/-- C7: `destination` is exactly `destination_with_radius` with the radius
fixed to the mean Earth radius constant `6371000.0`. -/
theorem destination_eq_with_earth_radius :
    (∀ (s : LatLon) (d b : ℝ),
      destination s d b = destination_with_radius s d b EARTH_RADIUS_M)
    ∧ EARTH_RADIUS_M = 6371000.0 :=
  ⟨fun _ _ _ => rfl, rfl⟩

/-- C5: the haversine distance is exactly symmetric in its two arguments in
the real model (the formula depends only on even functions of the coordinate
differences and a commutative product of cosines), and the distance from a
point to itself is exactly zero. -/
theorem distance_m_symm_and_self_zero :
    (∀ p q : LatLon, test_utils.distance_m p q = test_utils.distance_m q p)
    ∧ (∀ p : LatLon, test_utils.distance_m p p = 0) := by
  constructor
  · intro p q
    have h1 : Real.sin ((q.lat - p.lat) * 0.5) * Real.sin ((q.lat - p.lat) * 0.5)
        = Real.sin ((p.lat - q.lat) * 0.5) * Real.sin ((p.lat - q.lat) * 0.5) := by
      have hneg : (q.lat - p.lat) * 0.5 = -((p.lat - q.lat) * 0.5) := by ring
      rw [hneg, Real.sin_neg]
      ring
    have h2 : Real.cos p.lat * Real.cos q.lat
          * Real.sin ((q.lon - p.lon) * 0.5) * Real.sin ((q.lon - p.lon) * 0.5)
        = Real.cos q.lat * Real.cos p.lat
          * Real.sin ((p.lon - q.lon) * 0.5) * Real.sin ((p.lon - q.lon) * 0.5) := by
      have hneg : (q.lon - p.lon) * 0.5 = -((p.lon - q.lon) * 0.5) := by ring
      rw [hneg, Real.sin_neg]
      ring
    unfold test_utils.distance_m
    rw [h1, h2]
  · intro p
    have ha : clamp
        (Real.sin ((p.lat - p.lat) * 0.5) * Real.sin ((p.lat - p.lat) * 0.5)
          + Real.cos p.lat * Real.cos p.lat
            * Real.sin ((p.lon - p.lon) * 0.5) * Real.sin ((p.lon - p.lon) * 0.5))
        0 1 = 0 := by
      norm_num [clamp]
    unfold test_utils.distance_m
    rw [ha, Real.sqrt_zero]
    norm_num [atan2, Real.sqrt_one]

/-- C6: the initial azimuth in degrees always lies in `[0, 360)`, and in the
degenerate case where both intermediate quantities `x` and `y` are zero the
function returns exactly `0`. -/
theorem azimuth_deg_range_and_degenerate :
    (∀ p q : LatLon, test_utils.azimuth_deg p q ∈ Set.Ico (0:ℝ) 360)
    ∧ (∀ p q : LatLon,
        Real.cos p.lat * Real.sin q.lat
          - Real.sin p.lat * Real.cos q.lat * Real.cos (q.lon - p.lon) = 0 →
        Real.sin (q.lon - p.lon) * Real.cos q.lat = 0 →
        test_utils.azimuth_deg p q = 0) := by
  constructor
  · intro p q
    unfold test_utils.azimuth_deg
    split_ifs with h
    · rw [Set.mem_Ico]
      constructor <;> norm_num
    · exact test_utils.wrap_360_mem _
  · intro p q hx hy
    unfold test_utils.azimuth_deg
    rw [if_pos ⟨hx, hy⟩]

/-- C6 witness: identical points `(0,0)` give both `x = 0` and `y = 0`, and
the azimuth is `0`. -/
theorem azimuth_deg_degenerate_witness :
    test_utils.azimuth_deg (LatLon.mk 0 0) (LatLon.mk 0 0) = 0 :=
  azimuth_deg_range_and_degenerate.2 (LatLon.mk 0 0) (LatLon.mk 0 0)
    (by simp) (by simp)

lemma min_sep_aux (d2 : ℝ) (h : |d2| ≤ 180) (m : ℤ) :
    |d2| ≤ |d2 + 360 * (m : ℝ)| := by
  obtain ⟨hd1, hd2⟩ := abs_le.mp h
  rcases eq_or_ne m 0 with hm | hm
  · subst hm
    simp
  · have hcase : (1:ℤ) ≤ m ∨ m ≤ -1 := by omega
    rcases hcase with h' | h'
    · have hm' : (1:ℝ) ≤ (m:ℝ) := by exact_mod_cast h'
      have hpos : 0 ≤ d2 + 360 * (m:ℝ) := by nlinarith
      rw [abs_of_nonneg hpos]
      rcases abs_cases d2 with ⟨he, _⟩ | ⟨he, _⟩ <;> nlinarith
    · have hm' : (m:ℝ) ≤ -1 := by exact_mod_cast h'
      have hneg : d2 + 360 * (m:ℝ) ≤ 0 := by nlinarith
      rw [abs_of_nonpos hneg]
      rcases abs_cases d2 with ⟨he, _⟩ | ⟨he, _⟩ <;> nlinarith

lemma shift_spec (x d2 : ℝ) (k : ℤ) (hd : d2 = x - 360 * (k:ℝ)) (hb : |d2| ≤ 180) :
    (∀ j : ℤ, |d2| ≤ |x - 360 * (j:ℝ)|) ∧ (∃ j : ℤ, |d2| = |x - 360 * (j:ℝ)|) := by
  constructor
  · intro j
    have hrw : x - 360 * (j:ℝ) = d2 + 360 * (((k - j : ℤ)) : ℝ) := by
      push_cast
      rw [hd]
      ring
    rw [hrw]
    exact min_sep_aux d2 hb (k - j)
  · exact ⟨k, by rw [hd]⟩

lemma angle_diff_spec (a b : ℝ) :
    test_utils.angle_diff_deg a b ∈ Set.Icc (0:ℝ) 180
    ∧ (∀ k : ℤ, test_utils.angle_diff_deg a b ≤ |a - b - 360 * (k:ℝ)|)
    ∧ (∃ k : ℤ, test_utils.angle_diff_deg a b = |a - b - 360 * (k:ℝ)|) := by
  obtain ⟨hrl, hrr⟩ := fmod_bounds (a - b) 360 (by norm_num)
  have hk : fmod (a - b) 360 = (a - b) - 360 * ((rtrunc ((a - b) / 360)) : ℝ) := rfl
  unfold test_utils.angle_diff_deg
  split_ifs with h1 h2
  · have hb : |fmod (a - b) 360 + 360| ≤ 180 := by
      rw [abs_le]
      constructor <;> linarith
    have hd : fmod (a - b) 360 + 360
        = (a - b) - 360 * (((rtrunc ((a - b) / 360) - 1) : ℤ) : ℝ) := by
      rw [hk]
      push_cast
      ring
    exact ⟨Set.mem_Icc.mpr ⟨abs_nonneg _, hb⟩,
      (shift_spec (a - b) _ _ hd hb).1, (shift_spec (a - b) _ _ hd hb).2⟩
  · have hb : |fmod (a - b) 360 - 360| ≤ 180 := by
      rw [abs_le]
      constructor <;> linarith
    have hd : fmod (a - b) 360 - 360
        = (a - b) - 360 * (((rtrunc ((a - b) / 360) + 1) : ℤ) : ℝ) := by
      rw [hk]
      push_cast
      ring
    exact ⟨Set.mem_Icc.mpr ⟨abs_nonneg _, hb⟩,
      (shift_spec (a - b) _ _ hd hb).1, (shift_spec (a - b) _ _ hd hb).2⟩
  · push_neg at h1 h2
    have hb : |fmod (a - b) 360| ≤ 180 := by
      rw [abs_le]
      constructor <;> linarith
    exact ⟨Set.mem_Icc.mpr ⟨abs_nonneg _, hb⟩,
      (shift_spec (a - b) _ _ hk hb).1, (shift_spec (a - b) _ _ hk hb).2⟩

lemma angle_diff_at_359_1 : test_utils.angle_diff_deg 359 1 = 2 := by
  have hf : fmod ((359:ℝ) - 1) 360 = 358 := by
    unfold fmod rtrunc
    rw [if_pos (by norm_num : (0:ℝ) ≤ ((359:ℝ) - 1) / 360)]
    rw [show (((359:ℝ) - 1) / 360) = 358/360 by norm_num]
    rw [Int.floor_eq_zero_iff.mpr (by rw [Set.mem_Ico]; constructor <;> norm_num)]
    norm_num
  unfold test_utils.angle_diff_deg
  rw [hf, if_neg (by norm_num), if_pos (by norm_num)]
  rw [show (358:ℝ) - 360 = -2 by norm_num, abs_neg]
  exact abs_of_nonneg (by norm_num)

/-- C8: `angle_diff_deg` returns a value in `[0, 180]` that is the minimal
absolute angular separation of the two bearings (minimal over all multiples of
360 degrees of wraparound), and in particular the difference of 359 and 1
degrees is 2, not 358. -/
theorem angle_diff_deg_minimal_separation :
    (∀ a b : ℝ, test_utils.angle_diff_deg a b ∈ Set.Icc (0:ℝ) 180
      ∧ (∀ k : ℤ, test_utils.angle_diff_deg a b ≤ |a - b - 360 * (k:ℝ)|)
      ∧ (∃ k : ℤ, test_utils.angle_diff_deg a b = |a - b - 360 * (k:ℝ)|))
    ∧ test_utils.angle_diff_deg 359 1 = 2 :=
  ⟨angle_diff_spec, angle_diff_at_359_1⟩
